import Mathlib

/-!
Shallow embedding of `src/mass_set_signatures.py` (mass update of Yandex 360
mail signatures from CSV): the signature merger (`upsert_sign`), the identity
verifier (`user_owns_email`), the retrying transport (`backoff_request`), the
sender-info API wrappers and the per-row batch pipeline of `main`.
-/

namespace MassSig

/-- Python `str.lower()` restricted to ASCII case folding, on the char list. -/
def lower (s : String) : String := ⟨s.data.map Char.toLower⟩

/-- Python `str.strip()`: drop whitespace from both ends of the char list. -/
def stripChars (l : List Char) : List Char :=
  ((l.dropWhile Char.isWhitespace).reverse.dropWhile Char.isWhitespace).reverse

/-- Python `str.strip()` on strings. -/
def strip (s : String) : String := ⟨stripChars s.data⟩

/-- `x or dflt` on an optional string, with Python truthiness (empty is falsy). -/
def strOr (s : Option String) (dflt : String) : String :=
  match s with
  | some v => if v = "" then dflt else v
  | none => dflt

/-- One signature dictionary as handled by `upsert_sign`: the keys `text`,
`lang`, `isDefault`, `emails`, each possibly absent (`dict.get`). -/
structure SignRecord where
  text : Option String
  lang : Option String
  isDefault : Option Bool
  emails : Option (List String)
  deriving DecidableEq, Repr, Inhabited

/-- Default record used with `List.getD`. -/
def dsign : SignRecord := ⟨none, none, none, none⟩

/-- Insert into a sorted list of strings (for Python `sorted`). -/
def insertSorted (x : String) : List String → List String
  | [] => [x]
  | y :: ys => if x ≤ y then x :: y :: ys else y :: insertSorted x ys

/-- Python `sorted` on a list of strings (insertion sort). -/
def sortStr : List String → List String
  | [] => []
  | x :: xs => insertSorted x (sortStr xs)

/-- `sorted([email]) if email else []` in `upsert_sign`. -/
def wantEmails : Option String → List String
  | some e => sortStr [e]
  | none => []

/-- The matching test of `upsert_sign`'s search loop:
`s.get("lang") == lang and sorted(s.get("emails", [])) == want_emails`. -/
def matchesKey (lang : String) (email : Option String) (s : SignRecord) : Bool :=
  s.lang == some lang && sortStr (s.emails.getD []) == wantEmails email

/-- The clearing pass of `upsert_sign`: if the record shares `lang`, set
`isDefault` to `False`. -/
def clearOne (lang : String) (s : SignRecord) : SignRecord :=
  if s.lang == some lang then { s with isDefault := some false } else s

/-- `for s in signs: if s.get("lang") == lang: s["isDefault"] = False`. -/
def clearDefaults (signs : List SignRecord) (lang : String) : List SignRecord :=
  signs.map (clearOne lang)

/-- The fresh dictionary `new_entry` built by `upsert_sign`; the `emails` key
is present only when an email is bound. -/
def newEntry (lang : String) (email : Option String) (text : String)
    (makeDefault : Bool) : SignRecord :=
  ⟨some text, some lang, some makeDefault, email.map (fun e => [e])⟩

/-- `signs[target_idx].update(new_entry)`: overwrite the keys `text`, `lang`,
`isDefault`, and `emails` only when `new_entry` carries it. -/
def applyEntry (lang : String) (email : Option String) (text : String)
    (makeDefault : Bool) (s : SignRecord) : SignRecord :=
  { s with
    text := some text, lang := some lang, isDefault := some makeDefault,
    emails := match email with | some e => some [e] | none => s.emails }

/-- The search-and-update loop of `upsert_sign`: update the first record
matching the `(lang, emails)` key in place, else append `new_entry`. -/
def upsertCore (lang : String) (email : Option String) (text : String)
    (makeDefault : Bool) : List SignRecord → List SignRecord
  | [] => [newEntry lang email text makeDefault]
  | s :: rest =>
    if matchesKey lang email s then applyEntry lang email text makeDefault s :: rest
    else s :: upsertCore lang email text makeDefault rest

/-- `upsert_sign(signs, lang, email, text, make_default)`. -/
def upsert_sign (signs : List SignRecord) (lang : String) (email : Option String)
    (text : String) (makeDefault : Bool) : List SignRecord :=
  upsertCore lang email text makeDefault
    (if makeDefault then clearDefaults signs lang else signs)

/-- Number of records matching the `(lang, emailBinding)` key. -/
def countKey (signs : List SignRecord) (lang : String) (email : Option String) : Nat :=
  (signs.filter (matchesKey lang email)).length

/-- `normalize_signature(text, convert_newlines)`. -/
def normalize_signature (text : String) (convertNewlines : Bool) : String :=
  if convertNewlines then (text.replace "\\n" "<br>").replace "\n" "<br>" else text

/-- An HTTP response carrying a status code, the JSON payload it would parse
to, and raw body text. -/
structure Response (α : Type) where
  statusCode : Nat
  payload : α
  body : String

/-- The retriable status set of `backoff_request`. -/
def retriable (code : Nat) : Bool :=
  code == 429 || code == 500 || code == 502 || code == 503 || code == 504

/-- `wait = min(30.0, 0.5 * (2 ** (attempt - 1)))` in seconds. -/
def backoffWait (attempt : Nat) : ℚ :=
  min 30 ((1 / 2) * 2 ^ (attempt - 1))

/-- The backoff waits of `n` consecutive retriable attempts starting at
attempt `a`. -/
def waitsFrom (a : Nat) : Nat → List ℚ
  | 0 => []
  | n + 1 => backoffWait a :: waitsFrom (a + 1) n

/-- The retry loop of `backoff_request`: `attempt` is the one-based attempt
counter and `fuel` the number of loop iterations left (`for attempt in
range(1, 7)`); the oracle gives each attempt's response. On a retriable
status the loop sleeps `backoffWait attempt`, remembers the response as
`last` and continues; on the final retriable attempt it returns `last`.
Result: the returned response and the list of sleeps performed. -/
def backoffLoop {α : Type} (req : Nat → Response α) (attempt : Nat) :
    Nat → Response α × List ℚ
  | 0 => (req attempt, [])
  | fuel + 1 =>
    if retriable (req attempt).statusCode then
      if fuel = 0 then (req attempt, [backoffWait attempt])
      else
        ((backoffLoop req (attempt + 1) fuel).1,
          backoffWait attempt :: (backoffLoop req (attempt + 1) fuel).2)
    else (req attempt, [])

/-- `backoff_request(session, method, url)`: six attempts starting at 1. -/
def backoff_request {α : Type} (req : Nat → Response α) : Response α × List ℚ :=
  backoffLoop req 1 6

/-- `requests.Response.raise_for_status` raises exactly on 4xx/5xx. -/
def raisesStatus (code : Nat) : Bool := 400 ≤ code && code < 600

/-- The `requests.HTTPError` raised by `raise_for_status`. -/
structure HError where
  status : Nat
  deriving DecidableEq, Repr

/-- An alias-collection element: a plain string, a dict (with an optional
`address` key), or any other JSON value (skipped by the scan). -/
inductive AliasEntry where
  | str (s : String)
  | obj (address : Option String)
  | other
  deriving DecidableEq, Repr

/-- The user card consumed by `user_owns_email`: the `email` key and the
three possible alias collections (absent, or present as a list). A key whose
value is not a list behaves as absent. -/
structure UserIdent where
  email : Option String
  aliases : Option (List AliasEntry)
  emails : Option (List AliasEntry)
  alternateEmails : Option (List AliasEntry)
  deriving DecidableEq, Repr, Inhabited

/-- One alias element compared against the needle, as in the scan loop. -/
def aliasEntryMatches (needle : String) : AliasEntry → Bool
  | .str s => lower (strip s) == needle
  | .obj a => lower (strip (a.getD "")) == needle
  | .other => false

/-- All alias elements the scan visits, in scan order. -/
def aliasLists (u : UserIdent) : List AliasEntry :=
  u.aliases.getD [] ++ u.emails.getD [] ++ u.alternateEmails.getD []

/-- The body of `user_owns_email` after the needle is normalized. -/
def ownsBody (u : UserIdent) (needle : String) : Bool :=
  if lower (strip (u.email.getD "")) != "" && lower (strip (u.email.getD "")) == needle
  then true
  else
    (u.aliases.getD []).any (aliasEntryMatches needle) ||
    (u.emails.getD []).any (aliasEntryMatches needle) ||
    (u.alternateEmails.getD []).any (aliasEntryMatches needle)

/-- `user_owns_email(user, email)`. -/
def user_owns_email (u : UserIdent) (email : String) : Bool :=
  if email = "" then false
  else ownsBody u (lower (strip email))

/-- `get_user`: `None` on 404, raises on other 4xx/5xx, else the parsed user. -/
def get_user (attempts : Nat → Response UserIdent) :
    Except HError (Option UserIdent) :=
  if (backoff_request attempts).1.statusCode == 404 then .ok none
  else if raisesStatus (backoff_request attempts).1.statusCode then
    .error ⟨(backoff_request attempts).1.statusCode⟩
  else .ok (some (backoff_request attempts).1.payload)

/-- The parsed body of `GET .../settings/sender_info`. -/
structure SenderInfo where
  signs : Option (List SignRecord)
  signPosition : Option String
  deriving DecidableEq, Repr, Inhabited

/-- `get_sender_info`: 404 becomes `{"signs": [], "signPosition": "bottom"}`,
other 4xx/5xx raise, else the parsed settings. -/
def get_sender_info (attempts : Nat → Response SenderInfo) :
    Except HError SenderInfo :=
  if (backoff_request attempts).1.statusCode == 404 then .ok ⟨some [], some "bottom"⟩
  else if raisesStatus (backoff_request attempts).1.statusCode then
    .error ⟨(backoff_request attempts).1.statusCode⟩
  else .ok (backoff_request attempts).1.payload

/-- The JSON body POSTed to `.../settings/sender_info`. -/
structure Body where
  signs : List SignRecord
  signPosition : String
  deriving DecidableEq, Repr

/-- Per-row outcome tag, matching the printed `OK/SKIP/FAIL/DRY` lines. -/
inductive Outcome where
  | OK
  | SKIPPED
  | FAILED
  | DRY
  deriving DecidableEq, Repr

/-- What one row's handling did: its outcome, the body given to the POST
(none when no POST happened), the body computed by the build stage, and how
many `time.sleep(interval)` pacing sleeps ran. -/
structure RowTrace where
  outcome : Outcome
  submitted : Option Body
  built : Option Body
  sleeps : Nat
  deriving DecidableEq, Repr

/-- One CSV row (`DictReader` values; a missing column reads as `None`). -/
structure InputRow where
  userId : Option String
  email : Option String
  signature : Option String
  lang : Option String
  deriving DecidableEq, Repr

/-- The configuration `main` runs under. -/
structure Config where
  position : String
  defaultLang : String
  merge : Bool
  convertNewlines : Bool
  strictEmail : Bool
  dryRun : Bool
  rps : ℚ

/-- `interval = 1.0 / max(args.rps, 0.1)`. -/
def interval (cfg : Config) : ℚ := 1 / max cfg.rps (1 / 10)

/-- The responses the remote side would give to this row's three possible
calls (indexed by backoff attempt number). -/
structure RowNet where
  userAttempts : Nat → Response UserIdent
  senderAttempts : Nat → Response SenderInfo
  postAttempts : Nat → Response Unit

/-- The SUBMIT stage: dry-run prints, otherwise POST and classify by 200. -/
def submitRow (cfg : Config) (net : RowNet) (body : Body) :
    Except HError RowTrace :=
  if cfg.dryRun then .ok ⟨.DRY, none, some body, 1⟩
  else if (backoff_request net.postAttempts).1.statusCode == 200 then
    .ok ⟨.OK, some body, some body, 1⟩
  else .ok ⟨.FAILED, some body, some body, 1⟩

/-- The BUILD and SUBMIT stages after the email binding is settled: merge
mode fetches current settings (an `HTTPError` there fails the row), replace
mode builds a single default record. -/
def finishRow (cfg : Config) (net : RowNet) (lang textNorm : String)
    (emailToBind : Option String) : Except HError RowTrace :=
  if cfg.merge then
    match get_sender_info net.senderAttempts with
    | .error _ => .ok ⟨.FAILED, none, none, 1⟩
    | .ok current =>
      submitRow cfg net
        ⟨upsert_sign (current.signs.getD []) lang emailToBind textNorm true,
          strOr current.signPosition cfg.position⟩
  else
    submitRow cfg net
      ⟨[⟨some textNorm, some lang, some true, emailToBind.map (fun e => [e])⟩],
        cfg.position⟩

/-- `lang = (row.get("lang") or args.default_lang).strip().lower() or
args.default_lang`. -/
def rowLang (cfg : Config) (row : InputRow) : String :=
  if lower (strip (strOr row.lang cfg.defaultLang)) = "" then cfg.defaultLang
  else lower (strip (strOr row.lang cfg.defaultLang))

/-- The normalized signature text of a row. -/
def rowText (cfg : Config) (row : InputRow) : String :=
  normalize_signature (strip (row.signature.getD "")) cfg.convertNewlines

/-- One iteration of `main`'s row loop. An `HTTPError` from the unguarded
`get_user` call escapes as `.error`. -/
def processRow (cfg : Config) (net : RowNet) (row : InputRow) :
    Except HError RowTrace :=
  if strip (row.userId.getD "") = "" ∨ strip (row.signature.getD "") = "" then
    .ok ⟨.SKIPPED, none, none, 0⟩
  else if strip (row.email.getD "") = "" then
    finishRow cfg net (rowLang cfg row) (rowText cfg row) none
  else
    match get_user net.userAttempts with
    | .error e => .error e
    | .ok none =>
      if cfg.strictEmail then .ok ⟨.FAILED, none, none, 1⟩
      else finishRow cfg net (rowLang cfg row) (rowText cfg row) none
    | .ok (some u) =>
      if user_owns_email u (strip (row.email.getD "")) then
        finishRow cfg net (rowLang cfg row) (rowText cfg row)
          (some (strip (row.email.getD "")))
      else if cfg.strictEmail then .ok ⟨.FAILED, none, none, 1⟩
      else finishRow cfg net (rowLang cfg row) (rowText cfg row) none

/-- `main`'s row loop over all rows: a raised exception aborts the batch. -/
def runRows (cfg : Config) : List (InputRow × RowNet) → Except HError (List RowTrace)
  | [] => .ok []
  | (row, net) :: rest =>
    match processRow cfg net row with
    | .error e => .error e
    | .ok t =>
      match runRows cfg rest with
      | .error e => .error e
      | .ok ts => .ok (t :: ts)

/-- The `signPosition` of the body computed by a row, when any. -/
def builtPosition : Except HError RowTrace → Option String
  | .ok t => t.built.map Body.signPosition
  | .error _ => none

/-- The pacing-sleep count of a row, when it did not raise. -/
def sleepsOf : Except HError RowTrace → Option Nat
  | .ok t => some t.sleeps
  | .error _ => none

/-! Concrete inputs used by counterexamples and witnesses. -/

/-- Two records already sharing the `("en", unbound)` key. -/
def ex1 : List SignRecord :=
  [⟨some "a", some "en", none, none⟩, ⟨some "b", some "en", none, none⟩]

/-- Two records sharing the `("en", unbound)` key, the later one default. -/
def ex9 : List SignRecord :=
  [⟨some "a", some "en", none, none⟩, ⟨some "b", some "en", some true, none⟩]

/-- A user whose primary email is `a@x.com`. -/
def user8 : UserIdent := ⟨some "a@x.com", none, none, none⟩

/-- An empty user card. -/
def dummyUser : UserIdent := ⟨none, none, none, none⟩

/-- Replace-mode configuration with default position and flags. -/
def cfg8 : Config := ⟨"bottom", "ru", false, false, false, false, 4⟩

/-- Replace-mode configuration with `strict_email` set. -/
def cfg4 : Config := ⟨"bottom", "ru", false, false, true, false, 4⟩

/-- Merge-mode configuration with position `under`. -/
def cfg5 : Config := ⟨"under", "ru", true, false, false, false, 4⟩

/-- Network where every call succeeds and the user lookup yields `user8`. -/
def net8 : RowNet :=
  ⟨fun _ => ⟨200, user8, ""⟩, fun _ => ⟨200, default, ""⟩, fun _ => ⟨200, (), ""⟩⟩

/-- Network where the user lookup always answers 403. -/
def net4a : RowNet :=
  ⟨fun _ => ⟨403, dummyUser, ""⟩, fun _ => ⟨200, default, ""⟩, fun _ => ⟨200, (), ""⟩⟩

/-- Network where the user lookup always answers 404. -/
def net4b : RowNet :=
  ⟨fun _ => ⟨404, dummyUser, ""⟩, fun _ => ⟨200, default, ""⟩, fun _ => ⟨200, (), ""⟩⟩

/-- Network where the sender-info fetch answers 404 and the POST 200. -/
def net5 : RowNet :=
  ⟨fun _ => ⟨404, dummyUser, ""⟩, fun _ => ⟨404, default, ""⟩, fun _ => ⟨200, (), ""⟩⟩

/-- A normal row binding `a@x.com`. -/
def row8 : InputRow := ⟨some "u1", some "a@x.com", some "Hi", some "en"⟩

/-- A row with an empty signature. -/
def row6 : InputRow := ⟨some "u1", some "", some "", some "en"⟩

/-- A row with no email column. -/
def row5 : InputRow := ⟨some "u1", none, some "Hi", some "en"⟩

/-- A response oracle that always answers 500. -/
def reqAll500 : Nat → Response Unit := fun _ => ⟨500, (), "x"⟩

/-! Helper lemmas about list indexing. -/

theorem getD_map_lt {α β : Type} (f : α → β) (l : List α) (j : Nat) (d : α) (db : β)
    (h : j < l.length) : (l.map f).getD j db = f (l.getD j d) := by
  induction l generalizing j with
  | nil => simp at h
  | cons a t ih =>
    cases j with
    | zero => rfl
    | succ n => exact ih n (Nat.lt_of_succ_lt_succ h)

theorem getD_mem_of_lt {α : Type} (l : List α) (j : Nat) (d : α) (h : j < l.length) :
    l.getD j d ∈ l := by
  induction l generalizing j with
  | nil => simp at h
  | cons a t ih =>
    cases j with
    | zero => exact List.mem_cons_self a t
    | succ n => exact List.mem_cons_of_mem a (ih n (Nat.lt_of_succ_lt_succ h))

theorem getD_append_left {α : Type} (l₁ l₂ : List α) (j : Nat) (d : α)
    (h : j < l₁.length) : (l₁ ++ l₂).getD j d = l₁.getD j d := by
  induction l₁ generalizing j with
  | nil => simp at h
  | cons a t ih =>
    cases j with
    | zero => rfl
    | succ n => exact ih n (Nat.lt_of_succ_lt_succ h)

theorem getD_split_eq {α : Type} (pre : List α) (x : α) (post : List α) (d : α) :
    (pre ++ x :: post).getD pre.length d = x := by
  induction pre with
  | nil => rfl
  | cons a t ih => exact ih

theorem getD_split_ne {α : Type} (pre : List α) (x y : α) (post : List α) (j : Nat)
    (d : α) (h : j ≠ pre.length) :
    (pre ++ x :: post).getD j d = (pre ++ y :: post).getD j d := by
  induction pre generalizing j with
  | nil =>
    cases j with
    | zero => exact absurd rfl h
    | succ n => rfl
  | cons a t ih =>
    cases j with
    | zero => rfl
    | succ n =>
      refine ih n fun hn => h ?_
      simp [hn]

theorem first_match_split {α : Type} (p : α → Bool) (l : List α) :
    (∀ s ∈ l, p s = false) ∨
      ∃ pre r post, l = pre ++ r :: post ∧ (∀ s ∈ pre, p s = false) ∧ p r = true := by
  induction l with
  | nil => exact Or.inl (by simp)
  | cons a t ih =>
    by_cases ha : p a = true
    · exact Or.inr ⟨[], a, t, rfl, by simp, ha⟩
    · have ha' : p a = false := by simpa using ha
      rcases ih with h | ⟨pre, r, post, hl, hpre, hr⟩
      · refine Or.inl ?_
        intro s hs
        rcases List.mem_cons.mp hs with rfl | hs
        · exact ha'
        · exact h s hs
      · refine Or.inr ⟨a :: pre, r, post, by simp [hl], ?_, hr⟩
        intro s hs
        rcases List.mem_cons.mp hs with rfl | hs
        · exact ha'
        · exact hpre s hs

/-! Lemmas about the merger's key matching and clearing pass. -/

theorem matchesKey_clearOne (lang lang2 : String) (email : Option String)
    (s : SignRecord) :
    matchesKey lang email (clearOne lang2 s) = matchesKey lang email s := by
  unfold clearOne
  split <;> rfl

theorem matchesKey_lang {lang : String} {email : Option String} {s : SignRecord}
    (h : matchesKey lang email s = true) : s.lang = some lang := by
  unfold matchesKey at h
  exact eq_of_beq ((Bool.and_eq_true _ _).mp h).1

theorem matchesKey_newEntry (lang : String) (email : Option String) (text : String)
    (md : Bool) : matchesKey lang email (newEntry lang email text md) = true := by
  cases email <;> simp [matchesKey, newEntry, wantEmails, sortStr]

theorem matchesKey_applyEntry {lang : String} {email : Option String} (text : String)
    (md : Bool) {s : SignRecord} (h : matchesKey lang email s = true) :
    matchesKey lang email (applyEntry lang email text md s) = true := by
  cases email with
  | none =>
    unfold matchesKey at h
    unfold matchesKey applyEntry
    simpa using ((Bool.and_eq_true _ _).mp h).2
  | some e =>
    unfold matchesKey applyEntry
    simp [wantEmails]

theorem clearOne_of_ne {lang : String} {s : SignRecord} (h : s.lang ≠ some lang) :
    clearOne lang s = s := by
  unfold clearOne
  simp [h]

theorem clearOne_of_eq {lang : String} {s : SignRecord} (h : s.lang = some lang) :
    clearOne lang s = { s with isDefault := some false } := by
  unfold clearOne
  simp [h]

theorem length_clearDefaults (signs : List SignRecord) (lang : String) :
    (clearDefaults signs lang).length = signs.length := by
  simp [clearDefaults]

theorem getD_clearDefaults (signs : List SignRecord) (lang : String) (j : Nat)
    (h : j < signs.length) :
    (clearDefaults signs lang).getD j dsign = clearOne lang (signs.getD j dsign) :=
  getD_map_lt (clearOne lang) signs j dsign dsign h

theorem clearDefaults_mem_lang {signs : List SignRecord} {lang : String}
    {s : SignRecord} (hs : s ∈ clearDefaults signs lang) (hl : s.lang = some lang) :
    s.isDefault = some false := by
  rcases List.mem_map.mp hs with ⟨t, ht, rfl⟩
  by_cases h : t.lang = some lang
  · simp [clearOne, h]
  · rw [clearOne_of_ne h] at hl
    exact absurd hl h

/-! Lemmas about the search-and-update loop. -/

theorem upsertCore_of_no_match (lang : String) (email : Option String) (text : String)
    (md : Bool) (l : List SignRecord)
    (h : ∀ s ∈ l, matchesKey lang email s = false) :
    upsertCore lang email text md l = l ++ [newEntry lang email text md] := by
  induction l with
  | nil => rfl
  | cons a t ih =>
    have ha := h a (List.mem_cons_self a t)
    simp [upsertCore, ha, ih (fun s hs => h s (List.mem_cons_of_mem a hs))]

theorem upsertCore_split (lang : String) (email : Option String) (text : String)
    (md : Bool) (pre : List SignRecord) (r : SignRecord) (post : List SignRecord)
    (hpre : ∀ s ∈ pre, matchesKey lang email s = false)
    (hr : matchesKey lang email r = true) :
    upsertCore lang email text md (pre ++ r :: post) =
      pre ++ applyEntry lang email text md r :: post := by
  induction pre with
  | nil => simp [upsertCore, hr]
  | cons a t ih =>
    have ha := hpre a (List.mem_cons_self a t)
    simp [upsertCore, ha, ih (fun s hs => hpre s (List.mem_cons_of_mem a hs))]

theorem countKey_clearDefaults (signs : List SignRecord) (lang2 lang : String)
    (email : Option String) :
    countKey (clearDefaults signs lang2) lang email = countKey signs lang email := by
  unfold countKey clearDefaults
  induction signs with
  | nil => rfl
  | cons a t ih =>
    simp only [List.map_cons, List.filter_cons, matchesKey_clearOne]
    cases h : matchesKey lang email a <;> simp [h, ih]

theorem countKey_upsertCore (lang : String) (email : Option String) (text : String)
    (md : Bool) (l : List SignRecord) :
    countKey (upsertCore lang email text md l) lang email =
      if countKey l lang email = 0 then 1 else countKey l lang email := by
  induction l with
  | nil => simp [upsertCore, countKey, matchesKey_newEntry]
  | cons a t ih =>
    cases h : matchesKey lang email a with
    | true =>
      have hap := matchesKey_applyEntry text md h
      simp [upsertCore, countKey, List.filter_cons, h, hap]
    | false =>
      unfold countKey at ih ⊢
      simp [upsertCore, List.filter_cons, h, ih]

theorem upsert_sign_true (signs : List SignRecord) (lang : String)
    (email : Option String) (text : String) :
    upsert_sign signs lang email text true =
      upsertCore lang email text true (clearDefaults signs lang) := rfl

theorem upsert_sign_false (signs : List SignRecord) (lang : String)
    (email : Option String) (text : String) :
    upsert_sign signs lang email text false =
      upsertCore lang email text false signs := rfl

theorem matchesKey_false_of_lang_ne {lang : String} {email : Option String}
    {s : SignRecord} (h : s.lang ≠ some lang) : matchesKey lang email s = false := by
  cases hm : matchesKey lang email s
  · rfl
  · exact absurd (matchesKey_lang hm) h

theorem upsertCore_getD_of_not_match (lang : String) (email : Option String)
    (text : String) (md : Bool) (l : List SignRecord) (j : Nat) (hj : j < l.length)
    (h : matchesKey lang email (l.getD j dsign) = false) :
    (upsertCore lang email text md l).getD j dsign = l.getD j dsign := by
  induction l generalizing j with
  | nil => simp at hj
  | cons a t ih =>
    cases ha : matchesKey lang email a with
    | true =>
      cases j with
      | zero => rw [show (a :: t).getD 0 dsign = a from rfl] at h; rw [ha] at h; cases h
      | succ n => simp [upsertCore, ha]
    | false =>
      cases j with
      | zero => simp [upsertCore, ha]
      | succ n =>
        have := ih n (Nat.lt_of_succ_lt_succ hj) h
        simpa [upsertCore, ha] using this

theorem upsertCore_cleared_spec (lang : String) (email : Option String) (text : String)
    (l : List SignRecord)
    (hcl : ∀ s ∈ l, s.lang = some lang → s.isDefault = some false) :
    ∃ i, i < (upsertCore lang email text true l).length ∧
      ((upsertCore lang email text true l).getD i dsign).lang = some lang ∧
      ((upsertCore lang email text true l).getD i dsign).isDefault = some true ∧
      ((upsertCore lang email text true l).getD i dsign).text = some text ∧
      (∀ j, j < (upsertCore lang email text true l).length → j ≠ i →
        ((upsertCore lang email text true l).getD j dsign).lang = some lang →
        ((upsertCore lang email text true l).getD j dsign).isDefault = some false) := by
  rcases first_match_split (matchesKey lang email) l with hnone | ⟨pre, r, post, hl, hpre, hr⟩
  · rw [upsertCore_of_no_match lang email text true l hnone]
    have hget : (l ++ [newEntry lang email text true]).getD l.length dsign
        = newEntry lang email text true := getD_split_eq l _ [] dsign
    refine ⟨l.length, by simp, ?_, ?_, ?_, ?_⟩
    · rw [hget]; rfl
    · rw [hget]; rfl
    · rw [hget]; rfl
    · intro j hj hne hlang
      have hjl : j < l.length := by
        simp only [List.length_append, List.length_cons, List.length_nil] at hj
        omega
      rw [getD_append_left l _ j dsign hjl] at hlang ⊢
      exact hcl _ (getD_mem_of_lt l j dsign hjl) hlang
  · subst hl
    rw [upsertCore_split lang email text true pre r post hpre hr]
    have hget : (pre ++ applyEntry lang email text true r :: post).getD pre.length dsign
        = applyEntry lang email text true r := getD_split_eq pre _ post dsign
    refine ⟨pre.length, ?_, ?_, ?_, ?_, ?_⟩
    · simp only [List.length_append, List.length_cons]
      omega
    · rw [hget]; rfl
    · rw [hget]; rfl
    · rw [hget]; rfl
    · intro j hj hne hlang
      rw [getD_split_ne pre (applyEntry lang email text true r) r post j dsign hne] at hlang ⊢
      have hjl : j < (pre ++ r :: post).length := by
        simp only [List.length_append, List.length_cons] at hj ⊢
        omega
      exact hcl _ (getD_mem_of_lt _ j dsign hjl) hlang

theorem upsertCore_getD_after_match (lang : String) (email : Option String)
    (text : String) (md : Bool) (l : List SignRecord) (i j : Nat) (hij : i < j)
    (hjl : j < l.length) (hi : matchesKey lang email (l.getD i dsign) = true) :
    (upsertCore lang email text md l).length = l.length ∧
    (upsertCore lang email text md l).getD j dsign = l.getD j dsign := by
  rcases first_match_split (matchesKey lang email) l with hnone | ⟨pre, r, post, hl, hpre, hr⟩
  · have hfalse := hnone _ (getD_mem_of_lt l i dsign (Nat.lt_trans hij hjl))
    rw [hfalse] at hi
    exact Bool.noConfusion hi
  · subst hl
    have hplei : pre.length ≤ i := by
      by_contra hlt
      push_neg at hlt
      have hmem : (pre ++ r :: post).getD i dsign ∈ pre := by
        rw [getD_append_left pre (r :: post) i dsign hlt]
        exact getD_mem_of_lt pre i dsign hlt
      have hfalse := hpre _ hmem
      rw [hfalse] at hi
      exact Bool.noConfusion hi
    have hjne : j ≠ pre.length :=
      Ne.symm (Nat.ne_of_lt (Nat.lt_of_le_of_lt hplei hij))
    rw [upsertCore_split lang email text md pre r post hpre hr]
    constructor
    · simp
    · exact getD_split_ne pre (applyEntry lang email text md r) r post j dsign hjne

/-- C2: with `makeDefault = true`, `upsert_sign` yields a list in which the
inserted/updated record (at some index `i`) carries `lang`, the new text and
`isDefault = true`; every other record sharing `lang` — whatever its email
binding — has `isDefault = false`; and every record of a different language
is unchanged at its index. -/
theorem upsert_make_default_clears (signs : List SignRecord) (lang : String)
    (email : Option String) (text : String) :
    ∃ i, i < (upsert_sign signs lang email text true).length ∧
      ((upsert_sign signs lang email text true).getD i dsign).lang = some lang ∧
      ((upsert_sign signs lang email text true).getD i dsign).isDefault = some true ∧
      ((upsert_sign signs lang email text true).getD i dsign).text = some text ∧
      (∀ j, j < (upsert_sign signs lang email text true).length → j ≠ i →
        ((upsert_sign signs lang email text true).getD j dsign).lang = some lang →
        ((upsert_sign signs lang email text true).getD j dsign).isDefault = some false) ∧
      (∀ j, j < signs.length → (signs.getD j dsign).lang ≠ some lang →
        (upsert_sign signs lang email text true).getD j dsign = signs.getD j dsign) := by
  rw [upsert_sign_true]
  obtain ⟨i, h1, h2, h3, h4, h5⟩ :=
    upsertCore_cleared_spec lang email text (clearDefaults signs lang)
      (fun s hs hl => clearDefaults_mem_lang hs hl)
  refine ⟨i, h1, h2, h3, h4, h5, ?_⟩
  intro j hj hlang
  have hj' : j < (clearDefaults signs lang).length := by
    rw [length_clearDefaults]; exact hj
  have hmk : matchesKey lang email ((clearDefaults signs lang).getD j dsign) = false := by
    rw [getD_clearDefaults signs lang j hj, clearOne_of_ne hlang]
    exact matchesKey_false_of_lang_ne hlang
  rw [upsertCore_getD_of_not_match lang email text true _ j hj' hmk,
    getD_clearDefaults signs lang j hj, clearOne_of_ne hlang]

/-- C1 is false as stated: on a list already holding two records for the
`("en", unbound)` key, applying `upsert_sign` twice still leaves two records
for that key, not exactly one. -/
theorem upsert_twice_not_unique_on_duplicates :
    ¬ countKey (upsert_sign (upsert_sign ex1 "en" none "t" true) "en" none "t" true)
        "en" none = 1 := by
  decide

/-- C1 (amended): when the input list holds at most one record for the
`(lang, emailBinding)` key, applying `upsert_sign` twice with the same text
and makeDefault arguments produces a list with exactly one record whose lang
is `lang` and whose sorted email binding equals the wanted binding. -/
theorem upsert_twice_unique_key (signs : List SignRecord) (lang : String)
    (email : Option String) (text : String) (md : Bool)
    (h : countKey signs lang email ≤ 1) :
    countKey (upsert_sign (upsert_sign signs lang email text md) lang email text md)
      lang email = 1 := by
  cases md
  · rw [upsert_sign_false, upsert_sign_false, countKey_upsertCore, countKey_upsertCore]
    rcases Nat.le_one_iff_eq_zero_or_eq_one.mp h with h0 | h1
    · simp [h0]
    · simp [h1]
  · rw [upsert_sign_true, upsert_sign_true, countKey_upsertCore, countKey_clearDefaults,
      countKey_upsertCore, countKey_clearDefaults]
    rcases Nat.le_one_iff_eq_zero_or_eq_one.mp h with h0 | h1
    · simp [h0]
    · simp [h1]

theorem upsert_twice_unique_key_witness :
    countKey [] "en" none ≤ 1 ∧
      countKey (upsert_sign (upsert_sign [] "en" none "t" true) "en" none "t" true)
        "en" none = 1 :=
  ⟨by decide, upsert_twice_unique_key [] "en" none "t" true (by decide)⟩

/-- C9 is false as stated: a later duplicate for the key is not left
unchanged when the upsert sets a default — its `isDefault` is cleared by the
clearing pass. -/
theorem upsert_later_duplicate_changed :
    matchesKey "en" none (ex9.getD 0 dsign) = true ∧
    matchesKey "en" none (ex9.getD 1 dsign) = true ∧
    ¬ (upsert_sign ex9 "en" none "t" true).getD 1 dsign = ex9.getD 1 dsign := by
  decide

/-- C9 (amended): when an earlier record matches the key, a later record
matching the same key is not the update target: it keeps its text, lang and
emails (so the result may hold several records for one key); with
makeDefault=false it is fully unchanged, and with makeDefault=true only its
`isDefault` is cleared to false. -/
theorem upsert_later_duplicates_spec (signs : List SignRecord) (lang : String)
    (email : Option String) (text : String) (md : Bool) (i j : Nat) (hij : i < j)
    (hj : j < signs.length)
    (hi : matchesKey lang email (signs.getD i dsign) = true)
    (hjm : matchesKey lang email (signs.getD j dsign) = true) :
    (upsert_sign signs lang email text md).length = signs.length ∧
    ((upsert_sign signs lang email text md).getD j dsign).text
      = (signs.getD j dsign).text ∧
    ((upsert_sign signs lang email text md).getD j dsign).lang
      = (signs.getD j dsign).lang ∧
    ((upsert_sign signs lang email text md).getD j dsign).emails
      = (signs.getD j dsign).emails ∧
    (md = false → (upsert_sign signs lang email text md).getD j dsign
      = signs.getD j dsign) ∧
    (md = true → ((upsert_sign signs lang email text md).getD j dsign).isDefault
      = some false) := by
  cases md
  · rw [upsert_sign_false]
    obtain ⟨hlen, hgd⟩ :=
      upsertCore_getD_after_match lang email text false signs i j hij hj hi
    rw [hgd]
    exact ⟨hlen, rfl, rfl, rfl, fun _ => rfl, fun hx => (Bool.false_ne_true hx).elim⟩
  · rw [upsert_sign_true]
    have hi' : matchesKey lang email ((clearDefaults signs lang).getD i dsign) = true := by
      rw [getD_clearDefaults signs lang i (Nat.lt_trans hij hj), matchesKey_clearOne]
      exact hi
    have hj' : j < (clearDefaults signs lang).length := by
      rw [length_clearDefaults]; exact hj
    obtain ⟨hlen, hgd⟩ := upsertCore_getD_after_match lang email text true
      (clearDefaults signs lang) i j hij hj' hi'
    rw [hgd, getD_clearDefaults signs lang j hj, clearOne_of_eq (matchesKey_lang hjm)]
    exact ⟨by rw [hlen, length_clearDefaults], rfl, rfl, rfl,
      fun hx => Bool.noConfusion hx, fun _ => rfl⟩

theorem upsert_later_duplicates_spec_witness :
    (0 : Nat) < 1 ∧
    (upsert_sign ex9 "en" none "t" true).length = ex9.length ∧
    ((upsert_sign ex9 "en" none "t" true).getD 1 dsign).isDefault = some false :=
  have h := upsert_later_duplicates_spec ex9 "en" none "t" true 0 1
    (by decide) (by decide) (by decide) (by decide)
  ⟨by decide, h.1, h.2.2.2.2.2 rfl⟩

/-- C10: a record carrying an explicit empty emails list has the same
binding as a record with no emails field at all: an upsert with no bound
email matches it and overwrites it in place rather than appending. -/
theorem upsert_empty_emails_in_place (pre post : List SignRecord) (r : SignRecord)
    (lang text : String) (md : Bool) (hlang : r.lang = some lang)
    (hem : r.emails = some [])
    (hpre : ∀ s ∈ pre, matchesKey lang none s = false) :
    matchesKey lang none r = true ∧
    (∀ s : SignRecord, s.lang = some lang → s.emails = none →
      matchesKey lang none s = true) ∧
    (upsert_sign (pre ++ r :: post) lang none text md).length
      = (pre ++ r :: post).length ∧
    (upsert_sign (pre ++ r :: post) lang none text md).getD pre.length dsign
      = ⟨some text, some lang, some md, some []⟩ := by
  have hr : matchesKey lang none r = true := by
    simp [matchesKey, hlang, hem, wantEmails, sortStr]
  refine ⟨hr, fun s h1 h2 => by simp [matchesKey, h1, h2, wantEmails, sortStr], ?_⟩
  cases md
  · rw [upsert_sign_false, upsertCore_split lang none text false pre r post hpre hr]
    constructor
    · simp
    · rw [getD_split_eq pre _ post dsign]
      simp [applyEntry, hem]
  · rw [upsert_sign_true]
    have hcd : clearDefaults (pre ++ r :: post) lang
        = pre.map (clearOne lang) ++ clearOne lang r :: post.map (clearOne lang) := by
      simp [clearDefaults]
    rw [hcd, upsertCore_split lang none text true _ _ _
      (fun s hs => by
        rcases List.mem_map.mp hs with ⟨t, ht, rfl⟩
        rw [matchesKey_clearOne]
        exact hpre t ht)
      (by rw [matchesKey_clearOne]; exact hr)]
    constructor
    · simp
    · have hlm : (pre.map (clearOne lang)).length = pre.length := by simp
      rw [← hlm, getD_split_eq (pre.map (clearOne lang)) _ (post.map (clearOne lang)) dsign]
      simp [applyEntry, clearOne_of_eq hlang, hem]

theorem upsert_empty_emails_in_place_witness :
    (upsert_sign [(⟨some "a", some "en", some true, some []⟩ : SignRecord)]
      "en" none "t" true).length = 1 ∧
    (upsert_sign [(⟨some "a", some "en", some true, some []⟩ : SignRecord)]
      "en" none "t" true).getD 0 dsign = ⟨some "t", some "en", some true, some []⟩ :=
  have h := upsert_empty_emails_in_place [] [] ⟨some "a", some "en", some true, some []⟩
    "en" "t" true rfl rfl (by simp)
  ⟨h.2.2.1, h.2.2.2⟩

/-! Lemmas about the retrying transport. -/

theorem backoffLoop_not_retriable {α : Type} (req : Nat → Response α)
    (attempt fuel : Nat) (h : retriable (req attempt).statusCode = false) :
    backoffLoop req attempt (fuel + 1) = (req attempt, []) := by
  simp [backoffLoop, h]

theorem backoffLoop_step {α : Type} (req : Nat → Response α) (a f : Nat)
    (ha : retriable (req a).statusCode = true) (hf0 : ¬ f = 0) :
    backoffLoop req a (f + 1) =
      ((backoffLoop req (a + 1) f).1,
        backoffWait a :: (backoffLoop req (a + 1) f).2) := by
  have h : backoffLoop req a (f + 1) =
      if retriable (req a).statusCode then
        if f = 0 then (req a, [backoffWait a])
        else ((backoffLoop req (a + 1) f).1,
          backoffWait a :: (backoffLoop req (a + 1) f).2)
      else (req a, []) := rfl
  rw [h, if_pos ha, if_neg hf0]

theorem backoffLoop_first_failure {α : Type} (req : Nat → Response α) :
    ∀ n a fuel, n < fuel →
      (∀ i, a ≤ i → i < a + n → retriable (req i).statusCode = true) →
      retriable (req (a + n)).statusCode = false →
      backoffLoop req a fuel = (req (a + n), waitsFrom a n) := by
  intro n
  induction n with
  | zero =>
    intro a fuel hf hall hlast
    obtain ⟨f, rfl⟩ : ∃ f, fuel = f + 1 := ⟨fuel - 1, by omega⟩
    simpa using backoffLoop_not_retriable req a f (by simpa using hlast)
  | succ m ih =>
    intro a fuel hf hall hlast
    obtain ⟨f, rfl⟩ : ∃ f, fuel = f + 1 := ⟨fuel - 1, by omega⟩
    have ha : retriable (req a).statusCode = true := hall a le_rfl (by omega)
    have hf0 : ¬ f = 0 := by omega
    have heq : a + 1 + m = a + (m + 1) := by omega
    have hrec := ih (a + 1) f (by omega)
      (fun i hi1 hi2 => hall i (by omega) (by omega))
      (by rw [heq]; exact hlast)
    rw [backoffLoop_step req a f ha hf0, hrec, heq]
    rfl

theorem backoffLoop_exhaust {α : Type} (req : Nat → Response α) :
    ∀ m a, (∀ i, a ≤ i → i ≤ a + m → retriable (req i).statusCode = true) →
      backoffLoop req a (m + 1) = (req (a + m), waitsFrom a (m + 1)) := by
  intro m
  induction m with
  | zero =>
    intro a hall
    have ha := hall a le_rfl (by omega)
    simp [backoffLoop, ha, waitsFrom]
  | succ p ih =>
    intro a hall
    have ha := hall a le_rfl (by omega)
    have hrec := ih (a + 1) (fun i hi1 hi2 => hall i (by omega) (by omega))
    have hp0 : ¬ p + 1 = 0 := by omega
    have heq : a + 1 + p = a + (p + 1) := by omega
    rw [backoffLoop_step req a (p + 1) ha hp0, hrec, heq]
    rfl

/-- C3: the transport retries exactly on statuses 429, 500, 502, 503, 504;
every wait is capped at 30 seconds and the six waits are 0.5, 1, 2, 4, 8, 16
seconds; a non-retriable status at attempt `k ≤ 6` returns that attempt's
response immediately after the `k - 1` waits before it; and when all six
attempts are retriable, the sixth (last received) response is returned
without raising. -/
theorem backoff_request_spec {α : Type} (req : Nat → Response α) :
    (∀ c, retriable c = true ↔ (c = 429 ∨ c = 500 ∨ c = 502 ∨ c = 503 ∨ c = 504)) ∧
    (∀ a, backoffWait a ≤ 30) ∧
    waitsFrom 1 6 = [1 / 2, 1, 2, 4, 8, 16] ∧
    (∀ k, 1 ≤ k → k ≤ 6 →
      (∀ i, 1 ≤ i → i < k → retriable (req i).statusCode = true) →
      retriable (req k).statusCode = false →
      backoff_request req = (req k, waitsFrom 1 (k - 1))) ∧
    ((∀ i, 1 ≤ i → i ≤ 6 → retriable (req i).statusCode = true) →
      backoff_request req = (req 6, waitsFrom 1 6)) := by
  refine ⟨?_, ?_, ?_, ?_, ?_⟩
  · intro c
    simp [retriable, or_assoc]
  · intro a
    exact min_le_left _ _
  · norm_num [waitsFrom, backoffWait]
  · intro k hk1 hk6 hall hf
    have heq : 1 + (k - 1) = k := by omega
    have h := backoffLoop_first_failure req (k - 1) 1 6 (by omega)
      (fun i hi1 hi2 => hall i hi1 (by omega))
      (by rw [heq]; exact hf)
    rw [heq] at h
    exact h
  · intro hall
    have h := backoffLoop_exhaust req 5 1 (fun i hi1 hi2 => hall i hi1 (by omega))
    exact h

theorem backoff_request_spec_witness :
    backoff_request reqAll500 = (⟨500, (), "x"⟩, waitsFrom 1 6) :=
  (backoff_request_spec reqAll500).2.2.2.2 (fun _ _ _ => rfl)

/-! Lemmas about the identity verifier. -/

theorem user_owns_email_ne_empty (u : UserIdent) (c : String) (h : c ≠ "") :
    user_owns_email u c = ownsBody u (lower (strip c)) := by
  unfold user_owns_email
  simp [h]

theorem ownsBody_of_alias (u : UserIdent) (needle : String) (e : AliasEntry)
    (he : e ∈ aliasLists u) (hm : aliasEntryMatches needle e = true) :
    ownsBody u needle = true := by
  unfold ownsBody
  split
  · rfl
  · simp only [Bool.or_eq_true, List.any_eq_true]
    unfold aliasLists at he
    rcases List.mem_append.mp he with h12 | h3
    · rcases List.mem_append.mp h12 with h1 | h2
      · exact Or.inl (Or.inl ⟨e, h1, hm⟩)
      · exact Or.inl (Or.inr ⟨e, h2, hm⟩)
    · exact Or.inr ⟨e, h3, hm⟩

theorem mem_aliasLists (u : UserIdent) (e : AliasEntry)
    (he : e ∈ u.aliases.getD [] ∨ e ∈ u.emails.getD [] ∨ e ∈ u.alternateEmails.getD []) :
    e ∈ aliasLists u := by
  unfold aliasLists
  rcases he with h | h | h
  · exact List.mem_append.mpr (Or.inl (List.mem_append.mpr (Or.inl h)))
  · exact List.mem_append.mpr (Or.inl (List.mem_append.mpr (Or.inr h)))
  · exact List.mem_append.mpr (Or.inr h)

theorem ownsBody_eq_false (u : UserIdent) (needle : String)
    (hp : (lower (strip (u.email.getD "")) == needle) = false)
    (hall : ∀ e ∈ aliasLists u, aliasEntryMatches needle e = false) :
    ownsBody u needle = false := by
  unfold ownsBody
  rw [hp, Bool.and_false]
  have h1 : ∀ e ∈ u.aliases.getD [], aliasEntryMatches needle e = false :=
    fun e he => hall e (mem_aliasLists u e (Or.inl he))
  have h2 : ∀ e ∈ u.emails.getD [], aliasEntryMatches needle e = false :=
    fun e he => hall e (mem_aliasLists u e (Or.inr (Or.inl he)))
  have h3 : ∀ e ∈ u.alternateEmails.getD [], aliasEntryMatches needle e = false :=
    fun e he => hall e (mem_aliasLists u e (Or.inr (Or.inr he)))
  simp only [List.any_eq_false, Bool.and_false, Bool.false_eq_true, if_false,
    Bool.or_eq_false_iff]
  exact ⟨⟨fun x hx => by simp [h1 x hx], fun x hx => by simp [h2 x hx]⟩,
    fun x hx => by simp [h3 x hx]⟩

/-- C7: `user_owns_email` rejects the empty candidate; its result depends on
the candidate only through its whitespace-stripped lowercased form; it
returns false when the normalized candidate matches neither the normalized
primary email nor any alias entry; and it returns true when the candidate
matches an alias given as a plain string or as an object carrying an
`address` field. -/
theorem user_owns_email_spec :
    (∀ u : UserIdent, user_owns_email u "" = false) ∧
    (∀ (u : UserIdent) (c₁ c₂ : String), c₁ ≠ "" → c₂ ≠ "" →
      lower (strip c₁) = lower (strip c₂) →
      user_owns_email u c₁ = user_owns_email u c₂) ∧
    (∀ (u : UserIdent) (c : String), c ≠ "" →
      lower (strip (u.email.getD "")) ≠ lower (strip c) →
      (∀ e ∈ aliasLists u, aliasEntryMatches (lower (strip c)) e = false) →
      user_owns_email u c = false) ∧
    (∀ (u : UserIdent) (c s : String), c ≠ "" →
      AliasEntry.str s ∈ aliasLists u → lower (strip s) = lower (strip c) →
      user_owns_email u c = true) ∧
    (∀ (u : UserIdent) (c a : String), c ≠ "" →
      AliasEntry.obj (some a) ∈ aliasLists u → lower (strip a) = lower (strip c) →
      user_owns_email u c = true) := by
  refine ⟨?_, ?_, ?_, ?_, ?_⟩
  · intro u
    simp [user_owns_email]
  · intro u c₁ c₂ h1 h2 h3
    rw [user_owns_email_ne_empty u c₁ h1, user_owns_email_ne_empty u c₂ h2, h3]
  · intro u c hc hne hall
    rw [user_owns_email_ne_empty u c hc]
    refine ownsBody_eq_false u _ ?_ hall
    simp [hne]
  · intro u c s hc hmem heq
    rw [user_owns_email_ne_empty u c hc]
    refine ownsBody_of_alias u _ (.str s) hmem ?_
    simp [aliasEntryMatches, heq]
  · intro u c a hc hmem heq
    rw [user_owns_email_ne_empty u c hc]
    refine ownsBody_of_alias u _ (.obj (some a)) hmem ?_
    simp [aliasEntryMatches, heq]

theorem user_owns_email_spec_witness :
    user_owns_email ⟨none, some [.str " A@x.Com "], none, none⟩ "a@x.COM" = true :=
  user_owns_email_spec.2.2.2.1 ⟨none, some [.str " A@x.Com "], none, none⟩
    "a@x.COM" " A@x.Com " (by decide) (by simp [aliasLists]) (by decide)

/-! Lemmas about the per-row pipeline. -/

theorem submitRow_built (cfg : Config) (net : RowNet) (body : Body) :
    ∃ t, submitRow cfg net body = .ok t ∧ t.built = some body := by
  unfold submitRow
  split
  · exact ⟨_, rfl, rfl⟩
  · split
    · exact ⟨_, rfl, rfl⟩
    · exact ⟨_, rfl, rfl⟩

theorem finishRow_isOk (cfg : Config) (net : RowNet) (lang tn : String)
    (eb : Option String) : ∃ t, finishRow cfg net lang tn eb = .ok t := by
  unfold finishRow submitRow
  split
  · split
    · exact ⟨_, rfl⟩
    · split
      · exact ⟨_, rfl⟩
      · split
        · exact ⟨_, rfl⟩
        · exact ⟨_, rfl⟩
  · split
    · exact ⟨_, rfl⟩
    · split
      · exact ⟨_, rfl⟩
      · exact ⟨_, rfl⟩

theorem processRow_ok (cfg : Config) (net : RowNet) (row : InputRow)
    (h : ∃ v, get_user net.userAttempts = .ok v) :
    ∃ t, processRow cfg net row = .ok t := by
  obtain ⟨v, hv⟩ := h
  unfold processRow
  split
  · exact ⟨_, rfl⟩
  · split
    · exact finishRow_isOk cfg net _ _ none
    · split
      next e heq =>
        rw [hv] at heq
        exact Except.noConfusion heq
      next heq =>
        split
        · exact ⟨_, rfl⟩
        · exact finishRow_isOk cfg net _ _ none
      next u heq =>
        split
        · exact finishRow_isOk cfg net _ _ _
        · split
          · exact ⟨_, rfl⟩
          · exact finishRow_isOk cfg net _ _ none

theorem submitRow_sleeps (cfg : Config) (net : RowNet) (body : Body) (t : RowTrace)
    (h : submitRow cfg net body = .ok t) : t.sleeps = 1 ∧ t.outcome ≠ .SKIPPED := by
  unfold submitRow at h
  split at h
  · cases h
    exact ⟨rfl, by simp⟩
  · split at h
    · cases h
      exact ⟨rfl, by simp⟩
    · cases h
      exact ⟨rfl, by simp⟩

theorem finishRow_sleeps (cfg : Config) (net : RowNet) (lang tn : String)
    (eb : Option String) (t : RowTrace) (h : finishRow cfg net lang tn eb = .ok t) :
    t.sleeps = 1 ∧ t.outcome ≠ .SKIPPED := by
  unfold finishRow at h
  split at h
  · split at h
    · cases h
      exact ⟨rfl, by simp⟩
    · exact submitRow_sleeps _ _ _ _ h
  · exact submitRow_sleeps _ _ _ _ h

theorem row_sleep_core (cfg : Config) (net : RowNet) (row : InputRow) (t : RowTrace)
    (h : processRow cfg net row = .ok t) :
    t.sleeps = if t.outcome = .SKIPPED then 0 else 1 := by
  unfold processRow at h
  split at h
  · cases h
    rfl
  · split at h
    · obtain ⟨h1, h2⟩ := finishRow_sleeps _ _ _ _ _ _ h
      rw [h1, if_neg h2]
    · split at h
      · exact Except.noConfusion h
      · split at h
        · cases h
          rfl
        · obtain ⟨h1, h2⟩ := finishRow_sleeps _ _ _ _ _ _ h
          rw [h1, if_neg h2]
      · split at h
        · obtain ⟨h1, h2⟩ := finishRow_sleeps _ _ _ _ _ _ h
          rw [h1, if_neg h2]
        · split at h
          · cases h
            rfl
          · obtain ⟨h1, h2⟩ := finishRow_sleeps _ _ _ _ _ _ h
            rw [h1, if_neg h2]

/-- C8: in replace mode, for the row `u1 / a@x.com / Hi / en` with an
identity owning `a@x.com` and default configuration, the submitted body is
exactly one default `en` signature `Hi` bound to `a@x.com` at position
`bottom`. -/
theorem replace_mode_scenario_a :
    processRow cfg8 net8 row8 =
      .ok ⟨.OK,
        some ⟨[⟨some "Hi", some "en", some true, some ["a@x.com"]⟩], "bottom"⟩,
        some ⟨[⟨some "Hi", some "en", some true, some ["a@x.com"]⟩], "bottom"⟩, 1⟩ := rfl

/-- C4 is false as stated: a non-404 error status (403) on the identity
lookup of the first row raises an uncaught exception and aborts the batch,
so the second row is never processed — although that same second row alone
completes with a per-row outcome. -/
theorem batch_aborts_on_user_lookup_error :
    runRows cfg4 [(row8, net4a), (row8, net4b)] = .error ⟨403⟩ ∧
    runRows cfg4 [(row8, net4b)] = .ok [⟨.FAILED, none, none, 1⟩] :=
  ⟨rfl, rfl⟩

/-- C4 (amended): the per-row errors the code handles (user not found,
non-owned email, sender-info HTTP error, non-200 submit) are confined to the
row's outcome; but a non-404 HTTP error status on the identity lookup raises
out of the loop and aborts the batch. Whenever no row's identity lookup
raises, the batch completes with exactly one outcome per row. -/
theorem runRows_total (cfg : Config) (pairs : List (InputRow × RowNet))
    (h : ∀ p ∈ pairs, ∃ v, get_user p.2.userAttempts = .ok v) :
    ∃ ts, runRows cfg pairs = .ok ts ∧ ts.length = pairs.length := by
  induction pairs with
  | nil => exact ⟨[], rfl, rfl⟩
  | cons p rest ih =>
    obtain ⟨row, net⟩ := p
    obtain ⟨t, ht⟩ := processRow_ok cfg net row (h _ (List.mem_cons_self _ rest))
    obtain ⟨ts, hts, hlen⟩ := ih (fun q hq => h q (List.mem_cons_of_mem _ hq))
    refine ⟨t :: ts, ?_, by simp [hlen]⟩
    unfold runRows
    rw [ht, hts]

theorem runRows_total_witness :
    ∃ ts, runRows cfg4 [(row8, net4b)] = .ok ts ∧ ts.length = 1 :=
  runRows_total cfg4 [(row8, net4b)]
    (fun p hp => by
      rcases List.mem_singleton.mp hp with rfl
      exact ⟨none, rfl⟩)

/-- C5 is false as stated: in merge mode with the configured default
position `under`, a 404 on the remote settings fetch (the remote store has
no position) yields a submitted position `bottom`, not the configured
default. -/
theorem merge_404_position_not_configured :
    builtPosition (processRow cfg5 net5 row5) = some "bottom" ∧
    cfg5.position = "under" ∧
    builtPosition (processRow cfg5 net5 row5) ≠ some cfg5.position :=
  ⟨rfl, rfl, by decide⟩

/-- C5 (amended): in merge mode the submitted position is the remote one
when the fetched settings carry a nonempty `signPosition`, and the
configured default when a 200 response carries none (or an empty one); a 404
fetch however is replaced by the literal defaults
`{signs: [], signPosition: "bottom"}`, so the submitted position is then
`bottom` regardless of the configured default. -/
theorem merge_position_spec (cfg : Config) (net : RowNet) (lang tn : String)
    (eb : Option String) (hm : cfg.merge = true) :
    (∀ current, get_sender_info net.senderAttempts = .ok current →
      ∃ t, finishRow cfg net lang tn eb = .ok t ∧
        ∃ b, t.built = some b ∧
          b.signPosition = strOr current.signPosition cfg.position) ∧
    ((backoff_request net.senderAttempts).1.statusCode = 404 →
      get_sender_info net.senderAttempts = .ok ⟨some [], some "bottom"⟩ ∧
      ∃ t, finishRow cfg net lang tn eb = .ok t ∧
        ∃ b, t.built = some b ∧ b.signPosition = "bottom") := by
  have hmain : ∀ current, get_sender_info net.senderAttempts = .ok current →
      ∃ t, finishRow cfg net lang tn eb = .ok t ∧
        ∃ b, t.built = some b ∧
          b.signPosition = strOr current.signPosition cfg.position := by
    intro current hcur
    unfold finishRow
    rw [if_pos hm, hcur]
    obtain ⟨t, ht, hb⟩ := submitRow_built cfg net
      ⟨upsert_sign (current.signs.getD []) lang eb tn true,
        strOr current.signPosition cfg.position⟩
    exact ⟨t, ht, _, hb, rfl⟩
  refine ⟨hmain, fun h404 => ?_⟩
  have hgs : get_sender_info net.senderAttempts = .ok ⟨some [], some "bottom"⟩ := by
    unfold get_sender_info
    rw [h404]
    rfl
  obtain ⟨t, ht, b, hb, hbp⟩ := hmain ⟨some [], some "bottom"⟩ hgs
  refine ⟨hgs, t, ht, b, hb, ?_⟩
  rw [hbp]
  rfl

theorem merge_position_spec_witness :
    cfg5.merge = true ∧
    (backoff_request net5.senderAttempts).1.statusCode = 404 ∧
    (get_sender_info net5.senderAttempts = .ok ⟨some [], some "bottom"⟩ ∧
      ∃ t, finishRow cfg5 net5 "en" "Hi" none = .ok t ∧
        ∃ b, t.built = some b ∧ b.signPosition = "bottom") :=
  ⟨rfl, rfl, (merge_position_spec cfg5 net5 "en" "Hi" none rfl).2 rfl⟩

/-- C6 is false as stated: a row rejected for an empty signature determines
outcome SKIPPED but executes zero pacing sleeps before the next row, not
exactly one. -/
theorem skipped_row_does_not_sleep :
    processRow cfg8 net8 row6 = .ok ⟨.SKIPPED, none, none, 0⟩ ∧
    sleepsOf (processRow cfg8 net8 row6) ≠ some 1 :=
  ⟨rfl, by decide⟩

/-- C6 (amended): after a row's outcome is determined the fixed-interval
pacing sleep of `1 / max(rps, 0.1)` seconds runs exactly once — except for
rows rejected at START (empty userId or signature, outcome SKIPPED), which
proceed to the next row without any pacing sleep. -/
theorem row_sleep_spec (cfg : Config) (net : RowNet) (row : InputRow)
    (t : RowTrace) (h : processRow cfg net row = .ok t) :
    (t.sleeps = if t.outcome = .SKIPPED then 0 else 1) ∧
    interval cfg = 1 / max cfg.rps (1 / 10) :=
  ⟨row_sleep_core cfg net row t h, rfl⟩

theorem row_sleep_spec_witness :
    ((⟨Outcome.SKIPPED, none, none, 0⟩ : RowTrace).sleeps =
      if (⟨Outcome.SKIPPED, none, none, 0⟩ : RowTrace).outcome = .SKIPPED then 0
      else 1) ∧
    interval cfg8 = 1 / max cfg8.rps (1 / 10) :=
  row_sleep_spec cfg8 net8 row6 ⟨.SKIPPED, none, none, 0⟩ rfl

end MassSig
